import Mathlib

/-!
# Verification of the bmatch group lifecycle & matching engine

Shallow embedding of the Go sources of `Chandra179/bmatch`:

* `internal/service/group/service.go` — the lifecycle service
  (`CreateGroup`, `JoinGroup`, `ApplyToGroup`, `ApproveApplication`);
* the group repository (`repository.go`) — persisted state is modelled as a
  `GState` (one group row plus its `group_members` rows); every service
  operation runs its body inside a transaction, so an operation that returns
  an error leaves the persisted state unchanged (rollback) and a successful
  operation commits the new state;
* the matcher (`matcher.go`) — `CalculateJaccardScore`, `intersect`, `union`,
  `sortByScore`, `FindMatches`, and the candidate query `FindGroupsByTags`.

Go `string` becomes `String` (all enums in the source are string constants),
Go `int` becomes `Int`, Go `float64` scores become `ℚ` (the score is a
quotient of two small integer cardinalities; the comparisons and the concrete
values in the claims are exact), timestamps (`time.Time`) become `Nat`.
The external cache is modelled by counting the `cache.Del` calls an operation
performs on the key derived from the group ID.
-/

namespace BMatch

/-! ## Constants (internal/service/group/model.go) -/

def JoinTypeOpen : String := "OPEN"
def JoinTypeApplication : String := "APPLICATION"

def StatusOpen : String := "OPEN"
def StatusClosed : String := "CLOSED"
def StatusCompleted : String := "COMPLETED"

def RoleLeader : String := "LEADER"
def RoleMember : String := "MEMBER"

def ApplicationStatusPending : String := "PENDING"
def ApplicationStatusApproved : String := "APPROVED"
def ApplicationStatusRejected : String := "REJECTED"

/-! ## Domain models (internal/service/group/model.go) -/

/-- `Application` embedded in a group.  `AppliedAt`/`DecidedAt` timestamps are
modelled as `Nat`. -/
structure Application where
  userID : String
  pitch : String
  status : String
  appliedAt : Nat
  decidedAt : Option Nat
deriving DecidableEq, Repr

/-- The `Group` row.  `created_at`/`updated_at` are server-assigned and read by
no claim, so they are omitted from the model. -/
structure Group where
  id : String
  ownerID : String
  title : String
  description : String
  proposal : String
  tags : List String
  capacity : Int
  currentCount : Int
  joinType : String
  status : String
  applications : List Application
deriving DecidableEq, Repr

/-- A `group_members` row.  `joined_at` is DB-assigned (`DEFAULT NOW()`) and
read by no claim, so it is omitted. -/
structure GroupMember where
  groupID : String
  userID : String
  role : String
deriving DecidableEq, Repr

/-- Persisted state relevant to one group: its `groups` row and its
`group_members` rows. -/
structure GState where
  group : Group
  members : List GroupMember
deriving DecidableEq, Repr

/-- `CreateGroupRequest` DTO. -/
structure CreateGroupRequest where
  title : String
  description : String
  proposal : String
  tags : List String
  capacity : Int
  joinType : String
deriving DecidableEq, Repr

/-- `DiscoverGroupsRequest` DTO. -/
structure DiscoverGroupsRequest where
  tags : List String
  skillLevel : String
  joinType : String
  limit : Int
deriving DecidableEq, Repr

/-- The domain errors of `internal/service/group/errors.go` that the modelled
operations can produce. -/
inductive Err where
  | groupNotFound
  | groupFull
  | groupNotOpen
  | invalidJoinType
  | alreadyMember
  | notGroupOwner
  | applicationExists
  | applicationNotFound
  | cannotApplyToOpenGroup
  | cannotJoinApplicationGroup
deriving DecidableEq, Repr

/-! ## Repository predicates (repository.go) -/

/-- `IsMember`: `SELECT EXISTS(SELECT 1 FROM group_members WHERE group_id = $1
AND user_id = $2)`. -/
def IsMember (members : List GroupMember) (groupID userID : String) : Bool :=
  members.any fun m => m.groupID == groupID && m.userID == userID

/-- The loop in `ApplyToGroup` / `ApproveApplication` that scans
`group.Applications` for a `PENDING` application by `userID`. -/
def hasPendingFrom (apps : List Application) (userID : String) : Bool :=
  apps.any fun a => a.userID == userID && a.status == ApplicationStatusPending

/-- `ApproveApplication` locates the first `PENDING` application by
`applicantUserID` (index scan with `break`) and sets its status and decision
timestamp; all other applications are untouched. -/
def decideFirstPending (apps : List Application) (userID newStatus : String)
    (now : Nat) : List Application :=
  match apps with
  | [] => []
  | a :: rest =>
    if a.userID == userID && a.status == ApplicationStatusPending then
      { a with status := newStatus, decidedAt := some now } :: rest
    else
      a :: decideFirstPending rest userID newStatus now

/-! ## Transaction bodies (service.go)

Each `…Tx` function is the closure passed to `repo.WithTransaction`: it reads
the locked group row (`GetGroupWithLock` — `Err.groupNotFound` when the ID does
not match) and either fails (transaction rolls back, state unchanged) or
returns the committed successor state. -/

/-- Body of `Service.JoinGroup` (service.go lines 87-145). -/
def JoinGroupTx (st : GState) (groupID userID : String) : Except Err GState :=
  if st.group.id ≠ groupID then .error .groupNotFound else
  if st.group.status ≠ StatusOpen then .error .groupNotOpen else
  if st.group.joinType ≠ JoinTypeOpen then .error .cannotJoinApplicationGroup else
  if IsMember st.members groupID userID then .error .alreadyMember else
  if st.group.capacity ≤ st.group.currentCount then .error .groupFull else
  let members := st.members ++ [⟨groupID, userID, RoleMember⟩]
  let count := st.group.currentCount + 1
  let status := if st.group.capacity ≤ count then StatusClosed else st.group.status
  .ok ⟨{ st.group with currentCount := count, status := status }, members⟩

/-- Body of `Service.ApplyToGroup` (service.go lines 168-221). -/
def ApplyToGroupTx (st : GState) (groupID userID pitch : String) (now : Nat) :
    Except Err GState :=
  if st.group.id ≠ groupID then .error .groupNotFound else
  if st.group.status ≠ StatusOpen then .error .groupNotOpen else
  if st.group.joinType ≠ JoinTypeApplication then .error .cannotApplyToOpenGroup else
  if IsMember st.members groupID userID then .error .alreadyMember else
  if hasPendingFrom st.group.applications userID then .error .applicationExists else
  if st.group.capacity ≤ st.group.currentCount then .error .groupFull else
  .ok ⟨{ st.group with applications := st.group.applications ++ [⟨userID, pitch, ApplicationStatusPending, now, none⟩] }, st.members⟩

/-- Body of `Service.ApproveApplication` (service.go lines 241-307).

In the source, the approve branch first mutates the in-memory copy of the
application and only then re-checks capacity; when the check fails the
transaction returns `ErrGroupFull` and rolls back, so the persisted state is
exactly the pre-state — hence the capacity check precedes the (committed)
mutation here. -/
def ApproveApplicationTx (st : GState) (groupID applicantUserID ownerID : String)
    (approve : Bool) (now : Nat) : Except Err GState :=
  if st.group.id ≠ groupID then .error .groupNotFound else
  if st.group.ownerID ≠ ownerID then .error .notGroupOwner else
  if ¬ hasPendingFrom st.group.applications applicantUserID then
    .error .applicationNotFound
  else if approve then
    if st.group.capacity ≤ st.group.currentCount then .error .groupFull else
    let apps := decideFirstPending st.group.applications applicantUserID
      ApplicationStatusApproved now
    let members := st.members ++ [⟨groupID, applicantUserID, RoleMember⟩]
    let count := st.group.currentCount + 1
    let status := if st.group.capacity ≤ count then StatusClosed else st.group.status
    .ok ⟨{ st.group with applications := apps, currentCount := count, status := status }, members⟩
  else
    .ok ⟨{ st.group with applications := decideFirstPending st.group.applications applicantUserID ApplicationStatusRejected now }, st.members⟩

/-- Body of `Service.CreateGroup` (service.go lines 32-75): validates the join
type, defaults capacity to 5 when zero, inserts the group with the owner as
sole `LEADER` member (`newID` stands for the generated UUID). -/
def CreateGroupTx (ownerID : String) (req : CreateGroupRequest) (newID : String) :
    Except Err GState :=
  if req.joinType ≠ JoinTypeOpen ∧ req.joinType ≠ JoinTypeApplication then
    .error .invalidJoinType
  else
    let capacity := if req.capacity = 0 then 5 else req.capacity
    let group : Group :=
      ⟨newID, ownerID, req.title, req.description, req.proposal, req.tags,
       capacity, 1, req.joinType, StatusOpen, []⟩
    .ok ⟨group, [⟨newID, ownerID, RoleLeader⟩]⟩

/-! ## Service-level operations

The wrapper around each transaction records the committed state and the number
of `cache.Del` calls on the key `"group:" ++ groupID` performed after the
transaction. -/

/-- Outcome of a service call: returned error (if any), committed state, and
how many times the per-group cache key was deleted. -/
structure OpResult where
  err : Option Err
  state : GState
  cacheDels : Nat
deriving DecidableEq, Repr

/-- `Service.JoinGroup`: on error the state is unchanged and the cache is not
touched; on success the cache key is deleted once (service.go line 157). -/
def JoinGroup (st : GState) (groupID userID : String) : OpResult :=
  match JoinGroupTx st groupID userID with
  | .error e => ⟨some e, st, 0⟩
  | .ok st' => ⟨none, st', 1⟩

/-- `Service.ApplyToGroup`: the source logs and returns after the transaction;
it contains no `cache.Del` call on any path (service.go lines 223-238). -/
def ApplyToGroup (st : GState) (groupID userID pitch : String) (now : Nat) :
    OpResult :=
  match ApplyToGroupTx st groupID userID pitch now with
  | .error e => ⟨some e, st, 0⟩
  | .ok st' => ⟨none, st', 0⟩

/-- `Service.ApproveApplication`: deletes the cache key once on success
(service.go line 321). -/
def ApproveApplication (st : GState) (groupID applicantUserID ownerID : String)
    (approve : Bool) (now : Nat) : OpResult :=
  match ApproveApplicationTx st groupID applicantUserID ownerID approve now with
  | .error e => ⟨some e, st, 0⟩
  | .ok st' => ⟨none, st', 1⟩

/-- `Service.CreateGroup`: returns the fresh state (or an error) and performs
no `cache.Del` on any path (service.go lines 77-83). -/
def CreateGroup (ownerID : String) (req : CreateGroupRequest) (newID : String) :
    Except Err GState × Nat :=
  (CreateGroupTx ownerID req newID, 0)

/-! ## Operation sequences on one group (for the capacity invariant) -/

/-- One mutating call against the group's state: each runs in its own committed
transaction.  (`ApplyToGroup` is included as well: the invariant claim is
proved for the larger set of sequences.) -/
inductive Op where
  | join (groupID userID : String)
  | apply (groupID userID pitch : String) (now : Nat)
  | approve (groupID applicantUserID ownerID : String) (approve : Bool) (now : Nat)
deriving DecidableEq, Repr

/-- Committed state after one operation (a failed operation rolls back). -/
def applyOp (st : GState) (op : Op) : GState :=
  match op with
  | .join gid uid => (JoinGroup st gid uid).state
  | .apply gid uid pitch now => (ApplyToGroup st gid uid pitch now).state
  | .approve gid aid oid b now => (ApproveApplication st gid aid oid b now).state

/-- Committed state after a sequence of operations. -/
def runOps (st : GState) (ops : List Op) : GState :=
  ops.foldl applyOp st

/-- The capacity invariant of the spec: `current_count ≤ capacity` and
`status = CLOSED ↔ current_count = capacity`. -/
def capInv (st : GState) : Prop :=
  st.group.currentCount ≤ st.group.capacity ∧
    (st.group.status = StatusClosed ↔ st.group.currentCount = st.group.capacity)

instance (st : GState) : Decidable (capInv st) := by
  unfold capInv; infer_instance

/-! ## Matcher (matcher.go) -/

/-- Go builds a `map[string]bool` of seen items; as a key list this is
"append when absent".  Used by `intersect` (the set over `a`) and `union`. -/
def addIfAbsent (s : List String) (x : String) : List String :=
  if x ∈ s then s else s ++ [x]

/-- The body of the second loop of `intersect`: when `item` is in the set,
append it to the result and delete it from the set ("Prevent duplicates"). -/
def intersectStep (p : List String × List String) (item : String) :
    List String × List String :=
  if item ∈ p.1 then (p.1.erase item, p.2 ++ [item]) else p

/-- `intersect(a, b)`: build the set of `a`; walk `b`; collect each item found
in the set, deleting it from the set so duplicates in `b` are not collected
twice. -/
def intersect (a b : List String) : List String :=
  (b.foldl intersectStep (a.foldl addIfAbsent [], [])).2

/-- `union(a, b)`: walk `a` then `b`, appending each item not seen before. -/
def union (a b : List String) : List String :=
  b.foldl addIfAbsent (a.foldl addIfAbsent [])

/-- `CalculateJaccardScore(userTags, groupTags)` — the `float64` quotient is
modelled in `ℚ` (numerator and denominator are exact small integers). -/
def CalculateJaccardScore (userTags groupTags : List String) : ℚ :=
  if userTags = [] ∧ groupTags = [] then 0
  else
    let i := intersect userTags groupTags
    let u := union userTags groupTags
    if u.length = 0 then 0
    else (i.length : ℚ) / (u.length : ℚ)

/-- A `(Group, score)` pair as produced by `FindMatches`. -/
structure GroupMatch where
  group : Group
  similarityScore : ℚ
deriving DecidableEq

/-- The inner loop of `sortByScore` with bound `k`: up to `k` adjacent
comparisons from the front, swapping whenever the left score is strictly
smaller (`matches[j].SimilarityScore < matches[j+1].SimilarityScore`). -/
def passN (k : Nat) (l : List GroupMatch) : List GroupMatch :=
  match k, l with
  | 0, l => l
  | _ + 1, [] => []
  | _ + 1, [x] => [x]
  | k + 1, x :: y :: rest =>
    if x.similarityScore < y.similarityScore then
      y :: passN k (x :: rest)
    else
      x :: passN k (y :: rest)

/-- The outer loop of `sortByScore` re-expressed recursively: the iteration
with inner bound `k + 1` comparisons first, then the remaining `k`
iterations (see `sortByScore_eq_bubbleAux`). -/
def bubbleAux : Nat → List GroupMatch → List GroupMatch
  | 0, l => l
  | k + 1, l => bubbleAux k (passN (k + 1) l)

/-- `sortByScore` (matcher.go lines 543-554): bubble sort; outer loop
`i = 0 … n-2`, inner loop `j = 0 … n-i-2` comparing positions `j`, `j+1`.
(`ms` is the `matches` slice of the source.) -/
def sortByScore (ms : List GroupMatch) : List GroupMatch :=
  (List.range (ms.length - 1)).foldl
    (fun acc i => passN (ms.length - i - 1) acc) ms

/-- The candidate predicate of the `FindGroupsByTags` SQL query:
`status = 'OPEN' AND current_count < capacity`, plus `tags ?| $n` (the group's
tag array overlaps the given tags) when tags are given, plus
`join_type = $n` when the filter is set. -/
def candidateRow (tags : List String) (filters : DiscoverGroupsRequest)
    (g : Group) : Bool :=
  g.status == StatusOpen && g.currentCount < g.capacity &&
    (tags.isEmpty || tags.any (fun t => g.tags.contains t)) &&
    (filters.joinType == "" || g.joinType == filters.joinType)

/-- `FindGroupsByTags` (repository.go lines 227-306): filter the rows, order by
`created_at DESC` (the input `rows` are taken in that order), and apply
`LIMIT`, where the limit is `filters.Limit` defaulted to 50 when zero.  The
source applies no further cap. -/
def FindGroupsByTags (rows : List Group) (tags : List String)
    (filters : DiscoverGroupsRequest) : List Group :=
  let limit := if filters.limit = 0 then 50 else filters.limit
  (rows.filter (candidateRow tags filters)).take limit.toNat

/-- The `binding:"omitempty,min=1,max=100"` validation of
`DiscoverGroupsRequest.Limit` (model.go): a request reaching the service has
limit 0 (unset) or between 1 and 100. -/
def validDiscoverLimit (filters : DiscoverGroupsRequest) : Prop :=
  filters.limit = 0 ∨ (1 ≤ filters.limit ∧ filters.limit ≤ 100)

/-- `PostgresMatcher.FindMatches`: candidate query, Jaccard score per
candidate, bubble sort by score descending. -/
def FindMatches (rows : List Group) (userTags : List String)
    (filters : DiscoverGroupsRequest) : List GroupMatch :=
  let groups := FindGroupsByTags rows userTags filters
  let ms : List GroupMatch := groups.map (fun g => ⟨g, CalculateJaccardScore userTags g.tags⟩)
  sortByScore ms

/-! ## Helper lemmas -/

theorem IsMember_append_self (members : List GroupMember) (gid uid : String) :
    IsMember (members ++ [⟨gid, uid, RoleMember⟩]) gid uid = true := by
  simp [IsMember]

theorem hasPendingFrom_split (pre : List Application) (a : Application)
    (post : List Application) (uid : String)
    (ha : a.userID = uid) (ha2 : a.status = ApplicationStatusPending) :
    hasPendingFrom (pre ++ a :: post) uid = true := by
  simp [hasPendingFrom, List.any_append, ha, ha2]

theorem decideFirstPending_split (pre : List Application) (a : Application)
    (post : List Application) (uid newStatus : String) (now : Nat)
    (hpre : ∀ x ∈ pre, ¬(x.userID = uid ∧ x.status = ApplicationStatusPending))
    (ha : a.userID = uid) (ha2 : a.status = ApplicationStatusPending) :
    decideFirstPending (pre ++ a :: post) uid newStatus now =
      pre ++ { a with status := newStatus, decidedAt := some now } :: post := by
  induction pre with
  | nil => simp [decideFirstPending, ha, ha2]
  | cons x xs ih =>
    have hx := hpre x (by simp)
    simp only [List.cons_append, decideFirstPending, List.append_eq]
    rw [if_neg, ih (fun y hy => hpre y (by simp [hy]))]
    simp only [Bool.and_eq_true, beq_iff_eq]
    tauto

theorem StatusOpen_ne_closed : ¬ StatusOpen = StatusClosed := by decide

/-- A committed `JoinGroup` preserves the capacity invariant. -/
theorem capInv_JoinGroup (st : GState) (gid uid : String) (h : capInv st) :
    capInv (JoinGroup st gid uid).state := by
  cases htx : JoinGroupTx st gid uid with
  | error e => simpa [JoinGroup, htx] using h
  | ok st' =>
    simp only [JoinGroup, htx]
    by_cases hid : st.group.id = gid
    case neg => simp [JoinGroupTx, hid] at htx
    by_cases hst : st.group.status = StatusOpen
    case neg => simp [JoinGroupTx, hid, hst] at htx
    by_cases hjt : st.group.joinType = JoinTypeOpen
    case neg => simp [JoinGroupTx, hid, hst, hjt] at htx
    by_cases hm : IsMember st.members gid uid
    case pos => simp [JoinGroupTx, hid, hst, hjt, hm] at htx
    by_cases hc : st.group.capacity ≤ st.group.currentCount
    case pos => simp [JoinGroupTx, hid, hst, hjt, hm, hc] at htx
    simp only [JoinGroupTx, hid, hst, hjt, hm, hc, ne_eq, not_true_eq_false,
      if_false, Bool.false_eq_true, if_neg, not_false_eq_true, if_true,
      Except.ok.injEq] at htx
    subst htx
    by_cases hfull : st.group.capacity ≤ st.group.currentCount + 1
    · exact ⟨by simp [capInv]; omega, by simp [capInv, hfull]; omega⟩
    · refine ⟨by simp [capInv]; omega, ?_⟩
      simp only [capInv, hfull, if_false, hst]
      exact ⟨fun hx => absurd hx StatusOpen_ne_closed, fun hx => absurd hx (by omega)⟩

/-- A committed `ApplyToGroup` preserves the capacity invariant (it only
appends an application). -/
theorem capInv_ApplyToGroup (st : GState) (gid uid pitch : String) (now : Nat)
    (h : capInv st) : capInv (ApplyToGroup st gid uid pitch now).state := by
  cases htx : ApplyToGroupTx st gid uid pitch now with
  | error e => simpa [ApplyToGroup, htx] using h
  | ok st' =>
    simp only [ApplyToGroup, htx]
    unfold ApplyToGroupTx at htx
    split_ifs at htx
    cases htx
    simpa [capInv] using h

/-- A committed `ApproveApplication` preserves the capacity invariant. -/
theorem capInv_ApproveApplication (st : GState) (gid aid oid : String)
    (b : Bool) (now : Nat) (h : capInv st) :
    capInv (ApproveApplication st gid aid oid b now).state := by
  cases htx : ApproveApplicationTx st gid aid oid b now with
  | error e => simpa [ApproveApplication, htx] using h
  | ok st' =>
    simp only [ApproveApplication, htx]
    by_cases hid : st.group.id = gid
    case neg => simp [ApproveApplicationTx, hid] at htx
    by_cases how : st.group.ownerID = oid
    case neg => simp [ApproveApplicationTx, hid, how] at htx
    by_cases hp : hasPendingFrom st.group.applications aid = true
    case neg => simp [ApproveApplicationTx, hid, how, hp] at htx
    cases b with
    | false =>
      simp only [ApproveApplicationTx, hid, how, hp, ne_eq, not_true_eq_false,
        if_false, not_false_eq_true, if_true, Bool.false_eq_true,
        Except.ok.injEq] at htx
      subst htx
      simpa [capInv] using h
    | true =>
      by_cases hc : st.group.capacity ≤ st.group.currentCount
      case pos => simp [ApproveApplicationTx, hid, how, hp, hc] at htx
      simp only [ApproveApplicationTx, hid, how, hp, hc, ne_eq,
        not_true_eq_false, if_false, not_false_eq_true, if_true,
        Bool.false_eq_true, Except.ok.injEq, if_neg] at htx
      subst htx
      by_cases hfull : st.group.capacity ≤ st.group.currentCount + 1
      · exact ⟨by simp [capInv]; omega, by simp [capInv, hfull]; omega⟩
      · refine ⟨by simp [capInv]; omega, ?_⟩
        simp only [capInv, hfull, if_false]
        have hnc : ¬ st.group.status = StatusClosed := fun hx => by
          have := h.2.mp hx
          omega
        exact ⟨fun hx => absurd hx hnc, fun hx => absurd hx (by omega)⟩

/-- Every sequence of committed operations preserves the capacity
invariant. -/
theorem capInv_runOps (st : GState) (ops : List Op) (h : capInv st) :
    capInv (runOps st ops) := by
  induction ops generalizing st with
  | nil => exact h
  | cons op rest ih =>
    have h1 : capInv (applyOp st op) := by
      cases op with
      | join gid uid => exact capInv_JoinGroup st gid uid h
      | apply gid uid pitch now => exact capInv_ApplyToGroup st gid uid pitch now h
      | approve gid aid oid b now => exact capInv_ApproveApplication st gid aid oid b now h
    exact ih (applyOp st op) h1

/-! ## Claim theorems -/

/-- C1: starting from a freshly created group (capacity in the creation range
`[2,10]`, or 0 defaulting to 5), after every sequence of committed
`JoinGroup`/`ApplyToGroup`/`ApproveApplication` operations the group's
`current_count` never exceeds its `capacity`, and the status is `CLOSED` if
and only if `current_count = capacity`. -/
theorem claim1_capacity_invariant (ownerID : String) (req : CreateGroupRequest)
    (newID : String) (st0 : GState)
    (hcap : req.capacity = 0 ∨ (2 ≤ req.capacity ∧ req.capacity ≤ 10))
    (hcr : CreateGroupTx ownerID req newID = .ok st0)
    (ops : List Op) : capInv (runOps st0 ops) := by
  have h0 : capInv st0 := by
    by_cases hjt : req.joinType ≠ JoinTypeOpen ∧ req.joinType ≠ JoinTypeApplication
    · simp [CreateGroupTx, hjt] at hcr
    · simp only [CreateGroupTx, hjt, if_false, Except.ok.injEq] at hcr
      subst hcr
      dsimp [capInv]
      refine ⟨?_, ?_, ?_⟩
      · split <;> omega
      · intro hx; exact absurd hx StatusOpen_ne_closed
      · intro hx; split at hx <;> omega
  exact capInv_runOps st0 ops h0

/-- C1 witness: a fresh capacity-2 open group, filled by one join and probed
by further joins and a (failing) approval. -/
theorem claim1_witness :
    capInv (runOps ⟨⟨"gw", "owner1", "t", "d", "p", ["go"], 2, 1, "OPEN", "OPEN", []⟩, [⟨"gw", "owner1", "LEADER"⟩]⟩ [Op.join "gw" "w1", Op.join "gw" "w2", Op.approve "gw" "x" "owner1" true 3]) :=
  claim1_capacity_invariant "owner1" ⟨"t", "d", "p", ["go"], 2, "OPEN"⟩ "gw"
    ⟨⟨"gw", "owner1", "t", "d", "p", ["go"], 2, 1, "OPEN", "OPEN", []⟩, [⟨"gw", "owner1", "LEADER"⟩]⟩
    (Or.inr (by decide)) rfl
    [Op.join "gw" "w1", Op.join "gw" "w2", Op.approve "gw" "x" "owner1" true 3]


/-- C2: `JoinGroup` checks, in this exact precedence: `GroupNotOpen` when the
status is not `OPEN`; then `CannotJoinApplicationGroup` when the join type is
not `OPEN`; then `AlreadyMember` when a membership row exists; then
`GroupFull` when `current_count ≥ capacity`; otherwise it succeeds, inserting
a `MEMBER` row, incrementing the count by one, and setting the status to
`CLOSED` exactly when the incremented count reaches the capacity. -/
theorem claim2_joinGroup_precedence (st : GState) (gid uid : String)
    (h : st.group.id = gid) :
    JoinGroup st gid uid =
      if st.group.status ≠ StatusOpen then ⟨some Err.groupNotOpen, st, 0⟩
      else if st.group.joinType ≠ JoinTypeOpen then ⟨some Err.cannotJoinApplicationGroup, st, 0⟩
      else if IsMember st.members gid uid then ⟨some Err.alreadyMember, st, 0⟩
      else if st.group.capacity ≤ st.group.currentCount then ⟨some Err.groupFull, st, 0⟩
      else ⟨none, ⟨{ st.group with currentCount := st.group.currentCount + 1, status := if st.group.currentCount + 1 = st.group.capacity then StatusClosed else st.group.status }, st.members ++ [⟨gid, uid, RoleMember⟩]⟩, 1⟩ := by
  subst h
  by_cases h1 : st.group.status = StatusOpen
  · by_cases h2 : st.group.joinType = JoinTypeOpen
    · by_cases h3 : IsMember st.members st.group.id uid
      · simp [JoinGroup, JoinGroupTx, h1, h2, h3]
      · by_cases h4 : st.group.capacity ≤ st.group.currentCount
        · simp [JoinGroup, JoinGroupTx, h1, h2, h3, h4]
        · simp only [JoinGroup, JoinGroupTx, ne_eq, not_true_eq_false, if_false,
            h1, h2, h3, h4, if_neg, Bool.false_eq_true]
          have hiff : st.group.capacity ≤ st.group.currentCount + 1 ↔
              st.group.currentCount + 1 = st.group.capacity := by omega
          simp [hiff]
    · simp [JoinGroup, JoinGroupTx, h1, h2]
  · simp [JoinGroup, JoinGroupTx, h1]

/-- C2 witness: evaluating the theorem at a concrete open group. -/
theorem claim2_witness :
    JoinGroup ⟨⟨"g2", "o2", "t", "d", "p", ["go"], 5, 1, "OPEN", "OPEN", []⟩, [⟨"g2", "o2", "LEADER"⟩]⟩ "g2" "bob" =
      if (⟨⟨"g2", "o2", "t", "d", "p", ["go"], 5, 1, "OPEN", "OPEN", []⟩, [⟨"g2", "o2", "LEADER"⟩]⟩ : GState).group.status ≠ StatusOpen then ⟨some Err.groupNotOpen, ⟨⟨"g2", "o2", "t", "d", "p", ["go"], 5, 1, "OPEN", "OPEN", []⟩, [⟨"g2", "o2", "LEADER"⟩]⟩, 0⟩
      else if (⟨⟨"g2", "o2", "t", "d", "p", ["go"], 5, 1, "OPEN", "OPEN", []⟩, [⟨"g2", "o2", "LEADER"⟩]⟩ : GState).group.joinType ≠ JoinTypeOpen then ⟨some Err.cannotJoinApplicationGroup, ⟨⟨"g2", "o2", "t", "d", "p", ["go"], 5, 1, "OPEN", "OPEN", []⟩, [⟨"g2", "o2", "LEADER"⟩]⟩, 0⟩
      else if IsMember [⟨"g2", "o2", "LEADER"⟩] "g2" "bob" then ⟨some Err.alreadyMember, ⟨⟨"g2", "o2", "t", "d", "p", ["go"], 5, 1, "OPEN", "OPEN", []⟩, [⟨"g2", "o2", "LEADER"⟩]⟩, 0⟩
      else if (5 : Int) ≤ 1 then ⟨some Err.groupFull, ⟨⟨"g2", "o2", "t", "d", "p", ["go"], 5, 1, "OPEN", "OPEN", []⟩, [⟨"g2", "o2", "LEADER"⟩]⟩, 0⟩
      else ⟨none, ⟨{ (⟨"g2", "o2", "t", "d", "p", ["go"], 5, 1, "OPEN", "OPEN", []⟩ : Group) with currentCount := (1 : Int) + 1, status := if (1 : Int) + 1 = 5 then StatusClosed else "OPEN" }, [⟨"g2", "o2", "LEADER"⟩] ++ [⟨"g2", "bob", RoleMember⟩]⟩, 1⟩ :=
  claim2_joinGroup_precedence ⟨⟨"g2", "o2", "t", "d", "p", ["go"], 5, 1, "OPEN", "OPEN", []⟩, [⟨"g2", "o2", "LEADER"⟩]⟩ "g2" "bob" rfl

/-- C3: approving a `PENDING` application by the owner when the group is
already full (`current_count ≥ capacity`) returns `GroupFull` and the
committed state is exactly the pre-state (application still pending, count
not incremented, no membership row added, cache untouched). -/
theorem claim3_approve_full_rolls_back (st : GState) (gid aid oid : String)
    (now : Nat) (h1 : st.group.id = gid) (h2 : st.group.ownerID = oid)
    (h3 : hasPendingFrom st.group.applications aid = true)
    (h4 : st.group.capacity ≤ st.group.currentCount) :
    ApproveApplication st gid aid oid true now = ⟨some Err.groupFull, st, 0⟩ := by
  have htx : ApproveApplicationTx st gid aid oid true now = .error .groupFull := by
    unfold ApproveApplicationTx
    rw [if_neg (by simp [h1]), if_neg (by simp [h2]), if_neg (by simp [h3])]
    simp [h4]
  simp [ApproveApplication, htx]

/-- C3 witness: a full capacity-1 group with a pending application. -/
theorem claim3_witness :
    ApproveApplication ⟨⟨"g3", "o3", "t", "d", "p", [], 1, 1, "APPLICATION", "OPEN", [⟨"carol", "pitch", "PENDING", 4, none⟩]⟩, [⟨"g3", "o3", "LEADER"⟩]⟩ "g3" "carol" "o3" true 9 =
      ⟨some Err.groupFull, ⟨⟨"g3", "o3", "t", "d", "p", [], 1, 1, "APPLICATION", "OPEN", [⟨"carol", "pitch", "PENDING", 4, none⟩]⟩, [⟨"g3", "o3", "LEADER"⟩]⟩, 0⟩ :=
  claim3_approve_full_rolls_back _ "g3" "carol" "o3" 9 rfl rfl (by decide) (by decide)

/-- C9: rejecting the (first) `PENDING` application of `applicantID` sets
exactly that application to `REJECTED` with the decision timestamp and leaves
everything else unchanged: `current_count`, `status`, `capacity`, the
membership rows, and every other application. -/
theorem claim9_reject_frame (st : GState) (gid aid oid : String) (now : Nat)
    (pre : List Application) (a : Application) (post : List Application)
    (h1 : st.group.id = gid) (h2 : st.group.ownerID = oid)
    (happs : st.group.applications = pre ++ a :: post)
    (hpre : ∀ x ∈ pre, ¬(x.userID = aid ∧ x.status = ApplicationStatusPending))
    (ha : a.userID = aid) (ha2 : a.status = ApplicationStatusPending) :
    ApproveApplication st gid aid oid false now =
      ⟨none, ⟨{ st.group with applications := pre ++ { a with status := ApplicationStatusRejected, decidedAt := some now } :: post }, st.members⟩, 1⟩ := by
  have hp : hasPendingFrom st.group.applications aid = true := by
    rw [happs]; exact hasPendingFrom_split pre a post aid ha ha2
  have htx : ApproveApplicationTx st gid aid oid false now =
      .ok ⟨{ st.group with applications := pre ++ { a with status := ApplicationStatusRejected, decidedAt := some now } :: post }, st.members⟩ := by
    unfold ApproveApplicationTx
    rw [if_neg (by simp [h1]), if_neg (by simp [h2]), if_neg (by simp [hp])]
    simp only [Bool.false_eq_true, if_false]
    rw [happs, decideFirstPending_split pre a post aid _ now hpre ha ha2]
  simp [ApproveApplication, htx]

/-- C9 witness: a group with two applications; only Carol's is rejected. -/
theorem claim9_witness :
    ApproveApplication ⟨⟨"g9", "o9", "t", "d", "p", [], 5, 2, "APPLICATION", "OPEN", [⟨"dave", "dp", "APPROVED", 1, some 2⟩, ⟨"carol", "cp", "PENDING", 3, none⟩]⟩, [⟨"g9", "o9", "LEADER"⟩, ⟨"g9", "dave", "MEMBER"⟩]⟩ "g9" "carol" "o9" false 7 =
      ⟨none, ⟨⟨"g9", "o9", "t", "d", "p", [], 5, 2, "APPLICATION", "OPEN", [⟨"dave", "dp", "APPROVED", 1, some 2⟩, ⟨"carol", "cp", "REJECTED", 3, some 7⟩]⟩, [⟨"g9", "o9", "LEADER"⟩, ⟨"g9", "dave", "MEMBER"⟩]⟩, 1⟩ :=
  claim9_reject_frame _ "g9" "carol" "o9" 7 [⟨"dave", "dp", "APPROVED", 1, some 2⟩] ⟨"carol", "cp", "PENDING", 3, none⟩ [] rfl rfl rfl (by decide) rfl rfl

/-- C10: `ApproveApplication` performs no lifecycle-status check: a well-formed
rejection succeeds whatever the status is, and no call ever returns
`GroupNotOpen`. -/
theorem claim10_no_status_check (st : GState) (gid aid oid : String) (now : Nat)
    (h1 : st.group.id = gid) (h2 : st.group.ownerID = oid)
    (h3 : hasPendingFrom st.group.applications aid = true) :
    (ApproveApplication st gid aid oid false now).err = none ∧
      ∀ (st' : GState) (g a o : String) (b : Bool) (n : Nat),
        (ApproveApplication st' g a o b n).err ≠ some Err.groupNotOpen := by
  constructor
  · unfold ApproveApplication ApproveApplicationTx
    rw [if_neg (by simp [h1]), if_neg (by simp [h2]), if_neg (by simp [h3])]
    simp
  · intro st' g a o b n
    unfold ApproveApplication ApproveApplicationTx
    split_ifs <;> simp

/-- C10 witness: rejection succeeds on a `CLOSED` group. -/
theorem claim10_witness :
    (ApproveApplication ⟨⟨"g10", "o10", "t", "d", "p", [], 2, 2, "APPLICATION", "CLOSED", [⟨"erin", "ep", "PENDING", 1, none⟩]⟩, [⟨"g10", "o10", "LEADER"⟩]⟩ "g10" "erin" "o10" false 5).err = none :=
  (claim10_no_status_check _ "g10" "erin" "o10" 5 rfl rfl (by decide)).1

/-- C4 counterexample: a successful `ApplyToGroup` performs zero cache
deletions, contradicting the claim that every successful mutating operation
deletes the cache entry exactly once. -/
theorem claim4_counterexample :
    (ApplyToGroup ⟨⟨"g4", "o4", "t", "d", "p", ["go"], 5, 1, "APPLICATION", "OPEN", []⟩, [⟨"g4", "o4", "LEADER"⟩]⟩ "g4" "alice" "a pitch" 0).err = none ∧
      (ApplyToGroup ⟨⟨"g4", "o4", "t", "d", "p", ["go"], 5, 1, "APPLICATION", "OPEN", []⟩, [⟨"g4", "o4", "LEADER"⟩]⟩ "g4" "alice" "a pitch" 0).cacheDels ≠ 1 := by
  decide

/-- C4 amended: `JoinGroup` and `ApproveApplication` delete the per-group
cache entry exactly once on success and never on error; `CreateGroup` and
`ApplyToGroup` never delete it, not even on success. -/
theorem claim4_amended_cache (st : GState) (gid uid aid oid pitch ownerID newID : String)
    (b : Bool) (now : Nat) (req : CreateGroupRequest) :
    ((JoinGroup st gid uid).cacheDels = if (JoinGroup st gid uid).err = none then 1 else 0) ∧
      ((ApproveApplication st gid aid oid b now).cacheDels = if (ApproveApplication st gid aid oid b now).err = none then 1 else 0) ∧
      (ApplyToGroup st gid uid pitch now).cacheDels = 0 ∧
      (CreateGroup ownerID req newID).2 = 0 := by
  refine ⟨?_, ?_, ?_, rfl⟩
  · cases htx : JoinGroupTx st gid uid <;> simp [JoinGroup, htx]
  · cases htx : ApproveApplicationTx st gid aid oid b now <;>
      simp [ApproveApplication, htx]
  · cases htx : ApplyToGroupTx st gid uid pitch now <;> simp [ApplyToGroup, htx]

/-- C6 counterexample: in a capacity-2 group the first join fills and closes
the group, so the second join by the same user returns `GroupNotOpen`, not
`AlreadyMember`. -/
theorem claim6_counterexample :
    (JoinGroup ⟨⟨"g6", "o6", "t", "d", "p", ["go"], 2, 1, "OPEN", "OPEN", []⟩, [⟨"g6", "o6", "LEADER"⟩]⟩ "g6" "uma").err = none ∧
      (JoinGroup (JoinGroup ⟨⟨"g6", "o6", "t", "d", "p", ["go"], 2, 1, "OPEN", "OPEN", []⟩, [⟨"g6", "o6", "LEADER"⟩]⟩ "g6" "uma").state "g6" "uma").err = some Err.groupNotOpen ∧
      (JoinGroup (JoinGroup ⟨⟨"g6", "o6", "t", "d", "p", ["go"], 2, 1, "OPEN", "OPEN", []⟩, [⟨"g6", "o6", "LEADER"⟩]⟩ "g6" "uma").state "g6" "uma").err ≠ some Err.alreadyMember := by
  decide

/-- C6 amended: a second `JoinGroup` with the same `(groupID, userID)` after a
successful one always fails and leaves the state unchanged; the error is
`AlreadyMember` when the group is still `OPEN` after the first join, and
`GroupNotOpen` when the first join filled the group (status `CLOSED`). -/
theorem claim6_amended_second_join (st : GState) (gid uid : String)
    (h : (JoinGroup st gid uid).err = none) :
    (JoinGroup (JoinGroup st gid uid).state gid uid).err =
        some (if (JoinGroup st gid uid).state.group.status = StatusOpen then Err.alreadyMember else Err.groupNotOpen) ∧
      (JoinGroup (JoinGroup st gid uid).state gid uid).state = (JoinGroup st gid uid).state := by
  cases htx : JoinGroupTx st gid uid with
  | error e => simp [JoinGroup, htx] at h
  | ok st' =>
    have h1 : JoinGroup st gid uid = ⟨none, st', 1⟩ := by simp [JoinGroup, htx]
    rw [h1]
    by_cases hid' : st.group.id = gid
    case neg => simp [JoinGroupTx, hid'] at htx
    by_cases hst' : st.group.status = StatusOpen
    case neg => simp [JoinGroupTx, hid', hst'] at htx
    by_cases hjt' : st.group.joinType = JoinTypeOpen
    case neg => simp [JoinGroupTx, hid', hst', hjt'] at htx
    by_cases hm : IsMember st.members gid uid
    case pos => simp [JoinGroupTx, hid', hst', hjt', hm] at htx
    by_cases hc : st.group.capacity ≤ st.group.currentCount
    case pos => simp [JoinGroupTx, hid', hst', hjt', hm, hc] at htx
    simp only [JoinGroupTx, hid', hst', hjt', hm, hc, ne_eq, not_true_eq_false,
      if_false, Bool.false_eq_true, if_neg, not_false_eq_true, if_true,
      Except.ok.injEq] at htx
    subst htx
    by_cases hfull : st.group.capacity ≤ st.group.currentCount + 1
    · have hcl : ¬ (StatusClosed = StatusOpen) := by decide
      constructor
      · simp [JoinGroup, JoinGroupTx, hid', hfull, hcl]
      · simp [JoinGroup, JoinGroupTx, hid', hfull, hcl]
    · have hmem := IsMember_append_self st.members gid uid
      constructor
      · simp [JoinGroup, JoinGroupTx, hid', hst', hjt', hfull, hmem]
      · simp [JoinGroup, JoinGroupTx, hid', hst', hjt', hfull, hmem]

/-- C6 amended witness: capacity-5 group, second join gives `AlreadyMember`. -/
theorem claim6_amended_witness :
    (JoinGroup (JoinGroup ⟨⟨"g6b", "o6", "t", "d", "p", ["go"], 5, 1, "OPEN", "OPEN", []⟩, [⟨"g6b", "o6", "LEADER"⟩]⟩ "g6b" "vic").state "g6b" "vic").err =
        some (if (JoinGroup ⟨⟨"g6b", "o6", "t", "d", "p", ["go"], 5, 1, "OPEN", "OPEN", []⟩, [⟨"g6b", "o6", "LEADER"⟩]⟩ "g6b" "vic").state.group.status = StatusOpen then Err.alreadyMember else Err.groupNotOpen) ∧
      (JoinGroup (JoinGroup ⟨⟨"g6b", "o6", "t", "d", "p", ["go"], 5, 1, "OPEN", "OPEN", []⟩, [⟨"g6b", "o6", "LEADER"⟩]⟩ "g6b" "vic").state "g6b" "vic").state = (JoinGroup ⟨⟨"g6b", "o6", "t", "d", "p", ["go"], 5, 1, "OPEN", "OPEN", []⟩, [⟨"g6b", "o6", "LEADER"⟩]⟩ "g6b" "vic").state :=
  claim6_amended_second_join ⟨⟨"g6b", "o6", "t", "d", "p", ["go"], 5, 1, "OPEN", "OPEN", []⟩, [⟨"g6b", "o6", "LEADER"⟩]⟩ "g6b" "vic" (by decide)

/-- The Go "insert into map" fold keeps the key list duplicate-free and
realizes set union of the keys. -/
theorem foldl_addIfAbsent_spec (l : List String) :
    ∀ acc : List String, acc.Nodup →
      (l.foldl addIfAbsent acc).Nodup ∧
        (l.foldl addIfAbsent acc).toFinset = acc.toFinset ∪ l.toFinset := by
  induction l with
  | nil =>
    intro acc hacc
    simpa using hacc
  | cons x xs ih =>
    intro acc hacc
    simp only [List.foldl_cons]
    by_cases hx : x ∈ acc
    · have hstep : addIfAbsent acc x = acc := by simp [addIfAbsent, hx]
      rw [hstep]
      obtain ⟨h1, h2⟩ := ih acc hacc
      refine ⟨h1, ?_⟩
      rw [h2]
      ext y
      simp only [Finset.mem_union, List.mem_toFinset, List.toFinset_cons,
        Finset.mem_insert]
      constructor
      · rintro (hy | hy)
        · exact Or.inl hy
        · exact Or.inr (Or.inr hy)
      · rintro (hy | hy | hy)
        · exact Or.inl hy
        · exact Or.inl (hy ▸ hx)
        · exact Or.inr hy
    · have hstep : addIfAbsent acc x = acc ++ [x] := by simp [addIfAbsent, hx]
      rw [hstep]
      have hnd : (acc ++ [x]).Nodup := by
        simp [List.nodup_append, hacc, hx]
      obtain ⟨h1, h2⟩ := ih (acc ++ [x]) hnd
      refine ⟨h1, ?_⟩
      rw [h2, List.toFinset_append]
      ext y
      simp only [Finset.mem_union, List.mem_toFinset, List.toFinset_cons,
        Finset.mem_insert, List.mem_singleton, List.toFinset_nil,
        Finset.not_mem_empty, or_false]
      tauto

/-- Invariant of the `intersect` loop: the set holds exactly the elements of
`A` not yet collected, the result is duplicate-free and collects the elements
of `A` seen in the processed prefix of `b`. -/
theorem foldl_intersectStep_spec (b : List String) :
    ∀ (s r : List String) (A : Finset String), s.Nodup → r.Nodup →
      (∀ y, y ∈ s ↔ (y ∈ A ∧ y ∉ r)) → (∀ y, y ∈ r → y ∈ A) →
      ((b.foldl intersectStep (s, r)).2).Nodup ∧
        ∀ y, y ∈ (b.foldl intersectStep (s, r)).2 ↔ (y ∈ r ∨ (y ∈ A ∧ y ∈ b)) := by
  induction b with
  | nil =>
    intro s r A hs hr hmem hsub
    exact ⟨hr, fun y => by simp⟩
  | cons x xs ih =>
    intro s r A hs hr hmem hsub
    simp only [List.foldl_cons]
    by_cases hx : x ∈ s
    · have hstep : intersectStep (s, r) x = (s.erase x, r ++ [x]) := by
        simp [intersectStep, hx]
      rw [hstep]
      have hxA : x ∈ A ∧ x ∉ r := (hmem x).mp hx
      have hs' : (s.erase x).Nodup := hs.erase x
      have hr' : (r ++ [x]).Nodup := by
        simp [List.nodup_append, hr, hxA.2]
      have hmem' : ∀ y, y ∈ s.erase x ↔ (y ∈ A ∧ y ∉ r ++ [x]) := by
        intro y
        rw [hs.mem_erase_iff, hmem y]
        simp only [List.mem_append, List.mem_singleton]
        constructor
        · rintro ⟨hyx, hyA, hyr⟩
          exact ⟨hyA, fun hc => hc.elim hyr hyx⟩
        · rintro ⟨hyA, hyr⟩
          exact ⟨fun hc => hyr (Or.inr hc), hyA, fun hc => hyr (Or.inl hc)⟩
      have hsub' : ∀ y, y ∈ r ++ [x] → y ∈ A := by
        intro y hy
        rcases List.mem_append.mp hy with hy | hy
        · exact hsub y hy
        · rw [List.mem_singleton] at hy
          exact hy ▸ hxA.1
      obtain ⟨h1, h2⟩ := ih (s.erase x) (r ++ [x]) A hs' hr' hmem' hsub'
      refine ⟨h1, fun y => ?_⟩
      rw [h2 y]
      simp only [List.mem_append, List.mem_singleton, List.mem_cons,
        List.not_mem_nil, or_false]
      constructor
      · rintro ((hy | rfl) | ⟨hyA, hyxs⟩)
        · exact Or.inl hy
        · exact Or.inr ⟨hxA.1, Or.inl rfl⟩
        · exact Or.inr ⟨hyA, Or.inr hyxs⟩
      · rintro (hy | ⟨hyA, (rfl | hy)⟩)
        · exact Or.inl (Or.inl hy)
        · exact Or.inl (Or.inr rfl)
        · exact Or.inr ⟨hyA, hy⟩
    · have hstep : intersectStep (s, r) x = (s, r) := by
        simp [intersectStep, hx]
      rw [hstep]
      have hxr : x ∈ A → x ∈ r := by
        intro hxA
        by_contra hxr
        exact hx ((hmem x).mpr ⟨hxA, hxr⟩)
      obtain ⟨h1, h2⟩ := ih s r A hs hr hmem hsub
      refine ⟨h1, fun y => ?_⟩
      rw [h2 y]
      simp only [List.mem_cons]
      constructor
      · rintro (hy | ⟨hyA, hyxs⟩)
        · exact Or.inl hy
        · exact Or.inr ⟨hyA, Or.inr hyxs⟩
      · rintro (hy | ⟨hyA, (rfl | hy)⟩)
        · exact Or.inl hy
        · exact Or.inl (hxr hyA)
        · exact Or.inr ⟨hyA, hy⟩

/-- `intersect` is duplicate-free and realizes finite-set intersection. -/
theorem intersect_spec (a b : List String) :
    (intersect a b).Nodup ∧
      (intersect a b).toFinset = a.toFinset ∩ b.toFinset := by
  obtain ⟨hn, hf⟩ := foldl_addIfAbsent_spec a [] (by simp)
  have hmem : ∀ y, y ∈ a.foldl addIfAbsent [] ↔
      (y ∈ a.toFinset ∧ y ∉ ([] : List String)) := by
    intro y
    rw [← List.mem_toFinset, hf]
    simp
  obtain ⟨h1, h2⟩ := foldl_intersectStep_spec b (a.foldl addIfAbsent []) []
    a.toFinset hn (by simp) hmem (by simp)
  refine ⟨h1, ?_⟩
  ext y
  simp only [List.mem_toFinset, Finset.mem_inter, intersect]
  rw [h2 y]
  simp [List.mem_toFinset]

/-- `union` is duplicate-free and realizes finite-set union. -/
theorem union_spec (a b : List String) :
    (union a b).Nodup ∧ (union a b).toFinset = a.toFinset ∪ b.toFinset := by
  obtain ⟨h1, h2⟩ := foldl_addIfAbsent_spec a [] (by simp)
  obtain ⟨h3, h4⟩ := foldl_addIfAbsent_spec b (a.foldl addIfAbsent []) h1
  refine ⟨h3, ?_⟩
  rw [show union a b = b.foldl addIfAbsent (a.foldl addIfAbsent []) from rfl,
    h4, h2]
  simp

/-- C5: `CalculateJaccardScore` equals `|A ∩ B| / |A ∪ B|` on the tag sets
(duplicates inflate nothing), is 0 when both tag lists are empty, and takes
the four concrete values of the spec. -/
theorem claim5_jaccard_score (a b : List String) :
    (CalculateJaccardScore a b =
        if a.toFinset ∪ b.toFinset = ∅ then 0
        else ((a.toFinset ∩ b.toFinset).card : ℚ) / ((a.toFinset ∪ b.toFinset).card : ℚ)) ∧
      CalculateJaccardScore [] [] = 0 ∧
      CalculateJaccardScore ["go", "rust"] ["go", "rust"] = 1 ∧
      CalculateJaccardScore ["go"] ["rust"] = 0 ∧
      CalculateJaccardScore ["go", "rust"] ["go"] = 1/2 := by
  refine ⟨?_,
    by norm_num [CalculateJaccardScore],
    by norm_num +decide [CalculateJaccardScore, intersect, union, intersectStep, addIfAbsent],
    by norm_num +decide [CalculateJaccardScore, intersect, union, intersectStep, addIfAbsent],
    by norm_num +decide [CalculateJaccardScore, intersect, union, intersectStep, addIfAbsent]⟩
  by_cases h0 : a = [] ∧ b = []
  · rcases h0 with ⟨ha, hb⟩
    subst ha; subst hb
    simp [CalculateJaccardScore]
  · obtain ⟨hiN, hiF⟩ := intersect_spec a b
    obtain ⟨huN, huF⟩ := union_spec a b
    have hne : ¬ (a.toFinset ∪ b.toFinset = ∅) := by
      rw [Finset.union_eq_empty]
      simp only [List.toFinset_eq_empty_iff]
      exact h0
    have hul : (union a b).length = (a.toFinset ∪ b.toFinset).card := by
      rw [← List.toFinset_card_of_nodup huN, huF]
    have hil : (intersect a b).length = (a.toFinset ∩ b.toFinset).card := by
      rw [← List.toFinset_card_of_nodup hiN, hiF]
    have hunz : ¬ ((union a b).length = 0) := by
      rw [hul]
      simp only [Finset.card_eq_zero]
      exact hne
    simp only [CalculateJaccardScore, h0, hne, hunz, if_false, hil, hul]
    rw [if_neg (fun hc => hne (Finset.card_eq_zero.mp hc))]

/-- C8: for every request whose limit passed the binding validation
(`omitempty,min=1,max=100`), the candidate query returns at most
`filters.limit` groups (50 when the limit is unset), hence never more than
100. -/
theorem claim8_candidate_limit (rows : List Group) (tags : List String)
    (filters : DiscoverGroupsRequest) (h : validDiscoverLimit filters) :
    (FindGroupsByTags rows tags filters).length ≤
        (if filters.limit = 0 then (50 : Int) else filters.limit).toNat ∧
      (FindGroupsByTags rows tags filters).length ≤ 100 := by
  have hlen : (FindGroupsByTags rows tags filters).length ≤
      (if filters.limit = 0 then (50 : Int) else filters.limit).toNat := by
    unfold FindGroupsByTags
    exact List.length_take_le _ _
  refine ⟨hlen, le_trans hlen ?_⟩
  rcases h with h0 | ⟨hlo, hhi⟩
  · simp [h0]
  · have : filters.limit ≠ 0 := by omega
    simp only [this, if_false]
    omega

/-- C8 witness: unset limit on an empty table. -/
theorem claim8_witness :
    (FindGroupsByTags [] [] ⟨[], "", "", 0⟩).length ≤
        (if (0 : Int) = 0 then (50 : Int) else 0).toNat ∧
      (FindGroupsByTags [] [] ⟨[], "", "", 0⟩).length ≤ 100 :=
  claim8_candidate_limit [] [] ⟨[], "", "", 0⟩ (Or.inl rfl)

/-! ## Bubble sort (`sortByScore`) lemmas -/

theorem passN_nil (k : Nat) : passN k [] = [] := by
  cases k <;> rfl

theorem passN_single (k : Nat) (x : GroupMatch) : passN k [x] = [x] := by
  cases k <;> rfl

theorem passN_cons_cons (k : Nat) (x y : GroupMatch) (rest : List GroupMatch) :
    passN (k + 1) (x :: y :: rest) =
      if x.similarityScore < y.similarityScore then y :: passN k (x :: rest)
      else x :: passN k (y :: rest) := rfl

/-- `sortByScore` equals the recursive reformulation `bubbleAux`. -/
theorem sortByScore_eq_bubbleAux (l : List GroupMatch) :
    sortByScore l = bubbleAux (l.length - 1) l := by
  have key : ∀ (m : Nat) (l' : List GroupMatch),
      (List.range m).foldl (fun acc i => passN (m - i) acc) l' = bubbleAux m l' := by
    intro m
    induction m with
    | zero => intro l'; rfl
    | succ m ih =>
      intro l'
      rw [List.range_succ_eq_map, List.foldl_cons, List.foldl_map]
      simp only [Nat.succ_sub_succ, Nat.sub_zero]
      exact ih (passN (m + 1) l')
  unfold sortByScore
  rw [← key (l.length - 1) l]
  have hfun : (fun (acc : List GroupMatch) (i : Nat) => passN (l.length - i - 1) acc) =
      (fun (acc : List GroupMatch) (i : Nat) => passN (l.length - 1 - i) acc) := by
    funext acc i
    congr 1
    omega
  rw [hfun]

/-- One bounded pass is a permutation. -/
theorem passN_perm (k : Nat) : ∀ l : List GroupMatch, (passN k l).Perm l := by
  induction k with
  | zero => intro l; rw [passN]
  | succ k ih =>
    intro l
    match l with
    | [] => rw [passN_nil]
    | [x] => rw [passN_single]
    | x :: y :: rest =>
      rw [passN_cons_cons]
      split_ifs with hxy
      · exact ((ih (x :: rest)).cons y).trans (List.Perm.swap x y rest)
      · exact (ih (y :: rest)).cons x

/-- One bounded pass preserves the subsequence of entries with any given
score (stability of the swap step, which swaps only on strict inequality). -/
theorem passN_filter (s : ℚ) (k : Nat) :
    ∀ l : List GroupMatch,
      (passN k l).filter (fun m => decide (m.similarityScore = s)) =
        l.filter (fun m => decide (m.similarityScore = s)) := by
  induction k with
  | zero => intro l; rw [passN]
  | succ k ih =>
    intro l
    match l with
    | [] => rw [passN_nil]
    | [x] => rw [passN_single]
    | x :: y :: rest =>
      rw [passN_cons_cons]
      split_ifs with hxy
      · by_cases hx : x.similarityScore = s
        · by_cases hy : y.similarityScore = s
          · exact absurd hxy (by rw [hx, hy]; exact lt_irrefl s)
          · simp [List.filter_cons, hx, hy, ih (x :: rest)]
        · by_cases hy : y.similarityScore = s
          · simp [List.filter_cons, hx, hy, ih (x :: rest)]
          · simp [List.filter_cons, hx, hy, ih (x :: rest)]
      · simp [List.filter_cons, ih (y :: rest)]

/-- A bounded pass leaves a head-sorted list unchanged: no swap fires when
every element of `q` scores at most `x` and `q` is sorted descending. -/
theorem passN_cons_sorted :
    ∀ (q : List GroupMatch) (k : Nat) (x : GroupMatch),
      (∀ y ∈ q, y.similarityScore ≤ x.similarityScore) →
      q.Sorted (fun a b => b.similarityScore ≤ a.similarityScore) →
      passN k (x :: q) = x :: q := by
  intro q
  induction q with
  | nil => intro k x _ _; exact passN_single k x
  | cons y q' ih =>
    intro k x hbd hq
    cases k with
    | zero => rfl
    | succ k =>
      rw [passN_cons_cons]
      rw [if_neg (not_lt.mpr (hbd y (by simp)))]
      rw [List.sorted_cons] at hq
      rw [ih k y hq.1 hq.2]

/-- A bounded pass leaves a sorted list unchanged. -/
theorem passN_sorted (q : List GroupMatch) (k : Nat)
    (hq : q.Sorted (fun a b => b.similarityScore ≤ a.similarityScore)) :
    passN k q = q := by
  match q with
  | [] => exact passN_nil k
  | x :: q' =>
    rw [List.sorted_cons] at hq
    exact passN_cons_sorted q' k x hq.1 hq.2

/-- Structure of one pass over `p ++ q` when `q` is already the sorted tail:
the pass permutes `p` into `r' ++ [m]` where `m` is a minimum of `p`, and
leaves `q` in place. -/
theorem passN_front :
    ∀ (k : Nat) (p q : List GroupMatch), p ≠ [] → p.length ≤ k + 1 →
      (∀ x ∈ p, ∀ y ∈ q, y.similarityScore ≤ x.similarityScore) →
      q.Sorted (fun a b => b.similarityScore ≤ a.similarityScore) →
      ∃ (r' : List GroupMatch) (m : GroupMatch),
        passN k (p ++ q) = r' ++ m :: q ∧ (r' ++ [m]).Perm p ∧
          ∀ x ∈ r' ++ [m], m.similarityScore ≤ x.similarityScore := by
  intro k
  induction k with
  | zero =>
    intro p q hne hlen hbd hs
    match p, hne, hlen with
    | [x], _, _ =>
      exact ⟨[], x, by simp [passN], by simp, by simp⟩
    | x :: y :: t, _, hlen => simp at hlen
  | succ k ih =>
    intro p q hne hlen hbd hs
    match p with
    | [x] =>
      refine ⟨[], x, ?_, by simp, by simp⟩
      rw [List.cons_append, List.nil_append]
      exact passN_cons_sorted q (k + 1) x (hbd x (by simp)) hs
    | x :: y :: p₂ =>
      have hlen₂ : (y :: p₂).length ≤ k + 1 := by
        simp only [List.length_cons] at hlen ⊢
        omega
      rw [List.cons_append, List.cons_append, passN_cons_cons]
      split_ifs with hxy
      · have hbd' : ∀ a ∈ x :: p₂, ∀ b ∈ q, b.similarityScore ≤ a.similarityScore := by
          intro a ha b hb
          apply hbd a ?_ b hb
          rcases List.mem_cons.mp ha with h | h
          · exact h ▸ List.mem_cons_self x (y :: p₂)
          · simp [h]
        obtain ⟨r', m, heq, hperm, hmin⟩ := ih (x :: p₂) q (by simp)
          (by simpa using hlen₂) hbd' hs
        rw [← List.cons_append, heq]
        refine ⟨y :: r', m, by simp, ?_, ?_⟩
        · have h1 : (y :: (r' ++ [m])).Perm (y :: x :: p₂) := hperm.cons y
          have h2 : (y :: x :: p₂).Perm (x :: y :: p₂) := List.Perm.swap x y p₂
          simpa using h1.trans h2
        · intro z hz
          rcases List.mem_cons.mp hz with hz | hz
          · subst hz
            have hmx : m.similarityScore ≤ x.similarityScore :=
              hmin x (hperm.mem_iff.mpr (by simp))
            exact le_trans hmx (le_of_lt hxy)
          · exact hmin z hz
      · have hbd' : ∀ a ∈ y :: p₂, ∀ b ∈ q, b.similarityScore ≤ a.similarityScore := by
          intro a ha b hb
          exact hbd a (by simp [List.mem_cons.mp ha]) b hb
        obtain ⟨r', m, heq, hperm, hmin⟩ := ih (y :: p₂) q (by simp)
          hlen₂ hbd' hs
        rw [← List.cons_append, heq]
        refine ⟨x :: r', m, by simp, by simpa using hperm.cons x, ?_⟩
        intro z hz
        rcases List.mem_cons.mp hz with hz | hz
        · subst hz
          have hmy : m.similarityScore ≤ y.similarityScore :=
            hmin y (hperm.mem_iff.mpr (by simp))
          exact le_trans hmy (not_lt.mp hxy)
        · exact hmin z hz

/-- `bubbleAux` is a permutation. -/
theorem bubbleAux_perm (k : Nat) : ∀ l : List GroupMatch, (bubbleAux k l).Perm l := by
  induction k with
  | zero => intro l; rw [bubbleAux]
  | succ k ih =>
    intro l
    rw [bubbleAux]
    exact (ih (passN (k + 1) l)).trans (passN_perm (k + 1) l)

/-- `bubbleAux` preserves the subsequence at every score (stability). -/
theorem bubbleAux_filter (s : ℚ) (k : Nat) :
    ∀ l : List GroupMatch,
      (bubbleAux k l).filter (fun m => decide (m.similarityScore = s)) =
        l.filter (fun m => decide (m.similarityScore = s)) := by
  induction k with
  | zero => intro l; rw [bubbleAux]
  | succ k ih =>
    intro l
    rw [bubbleAux, ih (passN (k + 1) l), passN_filter s (k + 1) l]

/-- `bubbleAux k (p ++ q)` is sorted descending when `q` is a sorted tail
dominated by `p` and at most `k + 1` elements remain in `p`. -/
theorem bubbleAux_sorted :
    ∀ (k : Nat) (p q : List GroupMatch), p.length ≤ k + 1 →
      (∀ x ∈ p, ∀ y ∈ q, y.similarityScore ≤ x.similarityScore) →
      q.Sorted (fun a b => b.similarityScore ≤ a.similarityScore) →
      (bubbleAux k (p ++ q)).Sorted (fun a b => b.similarityScore ≤ a.similarityScore) := by
  intro k
  induction k with
  | zero =>
    intro p q hlen hbd hs
    rw [bubbleAux]
    match p, hlen with
    | [], _ => exact hs
    | [x], _ =>
      rw [List.cons_append, List.nil_append, List.sorted_cons]
      exact ⟨fun b hb => hbd x (by simp) b hb, hs⟩
    | x :: y :: t, hlen => simp at hlen
  | succ k ih =>
    intro p q hlen hbd hs
    rw [bubbleAux]
    rcases eq_or_ne p [] with rfl | hne
    · rw [List.nil_append, passN_sorted q (k + 1) hs]
      have := ih [] q (by simp) (by simp) hs
      simpa using this
    · obtain ⟨r', m, heq, hperm, hmin⟩ := passN_front (k + 1) p q hne
        (by omega) hbd hs
      rw [heq]
      have hlenr : r'.length ≤ k + 1 := by
        have := hperm.length_eq
        simp only [List.length_append, List.length_singleton] at this
        omega
      have hmp : m ∈ p := hperm.mem_iff.mp (by simp)
      have hbd' : ∀ x ∈ r', ∀ y ∈ m :: q, y.similarityScore ≤ x.similarityScore := by
        intro x hx y hy
        have hxp : x ∈ p := hperm.mem_iff.mp (by simp [hx])
        rcases List.mem_cons.mp hy with rfl | hy
        · exact hmin x (by simp [hx])
        · exact hbd x hxp y hy
      have hs' : (m :: q).Sorted (fun a b => b.similarityScore ≤ a.similarityScore) := by
        rw [List.sorted_cons]
        exact ⟨fun b hb => hbd m hmp b hb, hs⟩
      exact ih r' (m :: q) hlenr hbd' hs'

/-- `sortByScore` sorts descending, permutes its input, and is stable
(the subsequence at each score value is preserved). -/
theorem sortByScore_spec (l : List GroupMatch) :
    (sortByScore l).Perm l ∧
      (sortByScore l).Sorted (fun a b => b.similarityScore ≤ a.similarityScore) ∧
      ∀ s : ℚ, (sortByScore l).filter (fun m => decide (m.similarityScore = s)) =
        l.filter (fun m => decide (m.similarityScore = s)) := by
  rw [sortByScore_eq_bubbleAux]
  refine ⟨bubbleAux_perm _ l, ?_, fun s => bubbleAux_filter s _ l⟩
  have := bubbleAux_sorted (l.length - 1) l [] (by omega) (by simp) (by simp)
  simpa using this

/-- C7: `FindMatches` returns a permutation of the scored candidate-query
result, sorted descending by similarity score, preserving the candidate
order among equal scores (stable sort). -/
theorem claim7_findMatches_sorted_stable (rows : List Group)
    (userTags : List String) (filters : DiscoverGroupsRequest) :
    (FindMatches rows userTags filters).Perm
        ((FindGroupsByTags rows userTags filters).map
          (fun g => ⟨g, CalculateJaccardScore userTags g.tags⟩)) ∧
      (FindMatches rows userTags filters).Sorted
        (fun a b => b.similarityScore ≤ a.similarityScore) ∧
      ∀ s : ℚ,
        (FindMatches rows userTags filters).filter
            (fun m => decide (m.similarityScore = s)) =
          ((FindGroupsByTags rows userTags filters).map
              (fun g => ⟨g, CalculateJaccardScore userTags g.tags⟩)).filter
            (fun m => decide (m.similarityScore = s)) :=
  sortByScore_spec ((FindGroupsByTags rows userTags filters).map
    (fun g => ⟨g, CalculateJaccardScore userTags g.tags⟩))

end BMatch
